import Mathlib

/-!
Shallow embedding of the two scripts of this repository:

* `aa.py` — codebase mapper: `get_signatures` extracts labelled symbol
  signatures from JS/TS file content with five regular-expression rules,
  deduplicates them preserving first occurrence, truncates at
  `MAX_SIGNATURES` with a `"...(+N more)"` marker; `generate_map` walks a
  directory tree (pruning `IGNORE_DIRS`), rendering one line per directory
  and per file.

* `_scanproblem.py` — lint report generator: after running the external
  tool, the script logs stderr, treats empty stdout as an explicit error,
  treats unparsable stdout as a critical error quoting the first 500
  characters, and otherwise filters records with `errorCount > 0`, sorts
  them descending by `errorCount` (Python's sort is stable) and renders
  per-file banners and per-message lines with `.get` defaults.

Machine model conventions: Python `str` is Lean `String` (a list of
unicode codepoints, matching Python's per-character semantics for `len`,
slicing and `re` scanning); the character classes `\w` and `\s` are
modelled at their ASCII core, which covers every string the claims and
the configuration constants of the source involve.  The regular
expressions of `get_signatures` are compiled by hand into backtracking
matchers; each pattern is simple enough that greedy pieces never need to
backtrack (a maximal `\s+`/`\w+` run is always followed by a literal from
a disjoint character class), except for the non-greedy `\(.*?\)` of the
arrow rule, whose successive-candidate search is modelled explicitly.
-/

/-! ## Character classes (ASCII core of Python `\w` and `\s`) -/

def isWordChar (c : Char) : Bool := c.isAlphanum || c = '_'

def isSpaceChar (c : Char) : Bool :=
  c = ' ' || c = '\t' || c = '\n' || c = '\r' || c = '\x0b' || c = '\x0c'

/-! ## Elementary matcher pieces

Each piece consumes from the head of a list of characters and returns the
remainder (`none` on failure). -/

/-- Consume an exact literal. -/
def eatLit : List Char → List Char → Option (List Char)
  | [], l => some l
  | _ :: _, [] => none
  | p :: ps, c :: l => if c = p then eatLit ps l else none

/-- Consume `\s+` (greedy; the following piece is never whitespace, so
maximal munch is exact). -/
def eatWs1 : List Char → Option (List Char)
  | [] => none
  | c :: rest => if isSpaceChar c then some (rest.dropWhile isSpaceChar) else none

/-- Consume `(\w+)` (greedy) and return the capture. -/
def eatWord1 (l : List Char) : Option (String × List Char) :=
  let w := l.takeWhile isWordChar
  if w.isEmpty then none else some (String.mk w, l.dropWhile isWordChar)

/-! ## One matcher per regular expression of `get_signatures` -/

/-- Rule 1 of `get_signatures`: `class\s+(\w+)`. -/
def matchClassAt (l : List Char) : Option (String × List Char) := do
  let l1 ← eatLit "class".toList l
  let l2 ← eatWs1 l1
  eatWord1 l2

/-- Shared tail of rule 2: `function\s+(\w+)\s*\(`. -/
def matchFunctionCore (l : List Char) : Option (String × List Char) := do
  let l1 ← eatLit "function".toList l
  let l2 ← eatWs1 l1
  let (nm, l3) ← eatWord1 l2
  let l4 := l3.dropWhile isSpaceChar
  let l5 ← eatLit "(".toList l4
  pure (nm, l5)

/-- Rule 2 of `get_signatures`: `(?:async\s+)?function\s+(\w+)\s*\(`.
The optional group is tried first, exactly as the regex engine does. -/
def matchFunctionAt (l : List Char) : Option (String × List Char) :=
  (do
    let l1 ← eatLit "async".toList l
    let l2 ← eatWs1 l1
    matchFunctionCore l2) <|> matchFunctionCore l

/-- Non-greedy `.*?\)\s*=>` search of rule 3, entered just after `\(`:
try each candidate `)` from the nearest one outward, never crossing a
newline (`.` does not match `\n`), and at each candidate require
`\s*=>`. -/
def arrowTail : List Char → Option (List Char)
  | [] => none
  | c :: rest =>
    if c = '\n' then none
    else if c = ')' then
      match eatLit "=>".toList (rest.dropWhile isSpaceChar) with
      | some r => some r
      | none => arrowTail rest
    else arrowTail rest

/-- Rule 3 of `get_signatures`:
`(?:const|let|var)\s+(\w+)\s*=\s*(?:async\s*)?\(.*?\)\s*=>`. -/
def matchArrowAt (l : List Char) : Option (String × List Char) := do
  let l1 ← eatLit "const".toList l <|> eatLit "let".toList l <|> eatLit "var".toList l
  let l2 ← eatWs1 l1
  let (nm, l3) ← eatWord1 l2
  let l4 := l3.dropWhile isSpaceChar
  let l5 ← eatLit "=".toList l4
  let l6 := l5.dropWhile isSpaceChar
  let l7 ← (do
      let la ← eatLit "async".toList l6
      let lb := la.dropWhile isSpaceChar
      let lc ← eatLit "(".toList lb
      arrowTail lc) <|> (do
      let lc ← eatLit "(".toList l6
      arrowTail lc)
  pure (nm, l7)

/-- Shared tail of rule 4: `exports\.(\w+)\s*=`. -/
def matchExportTail (l : List Char) : Option (String × List Char) := do
  let l1 ← eatLit "exports.".toList l
  let (nm, l2) ← eatWord1 l1
  let l3 := l2.dropWhile isSpaceChar
  let l4 ← eatLit "=".toList l3
  pure (nm, l4)

/-- Rule 4 of `get_signatures`: `(?:module\.)?exports\.(\w+)\s*=`. -/
def matchExportAt (l : List Char) : Option (String × List Char) :=
  (do
    let l1 ← eatLit "module.".toList l
    matchExportTail l1) <|> matchExportTail l

/-- Rule 5 of `get_signatures`: `interface\s+(\w+)`. -/
def matchInterfaceAt (l : List Char) : Option (String × List Char) := do
  let l1 ← eatLit "interface".toList l
  let l2 ← eatWs1 l1
  eatWord1 l2

/-! ## `re.findall` scanning

Leftmost, non-overlapping scan: try the matcher at every position; on a
match, resume at its end (or one character further on an empty match,
which never occurs for these patterns).  The fuel argument, initialised
to the length of the text, only serves structural termination and is
never exhausted since every step consumes at least one character. -/

def scanAux (step : List Char → Option (String × List Char)) :
    Nat → List Char → List String
  | 0, _ => []
  | _, [] => []
  | fuel + 1, c :: rest =>
    match step (c :: rest) with
    | some p =>
      if p.2.length ≤ rest.length then p.1 :: scanAux step fuel p.2
      else p.1 :: scanAux step fuel rest
    | none => scanAux step fuel rest

def scanAll (step : List Char → Option (String × List Char)) (l : List Char) :
    List String :=
  scanAux step l.length l

/-- `re.findall(r'class\s+(\w+)', content)`. -/
def findClasses (content : String) : List String := scanAll matchClassAt content.toList

/-- `re.findall(r'(?:async\s+)?function\s+(\w+)\s*\(', content)`. -/
def findFunctions (content : String) : List String := scanAll matchFunctionAt content.toList

/-- `re.findall(r'(?:const|let|var)\s+(\w+)\s*=\s*(?:async\s*)?\(.*?\)\s*=>', content)`. -/
def findArrows (content : String) : List String := scanAll matchArrowAt content.toList

/-- `re.findall(r'(?:module\.)?exports\.(\w+)\s*=', content)`. -/
def findExports (content : String) : List String := scanAll matchExportAt content.toList

/-- `re.findall(r'interface\s+(\w+)', content)`. -/
def findInterfaces (content : String) : List String := scanAll matchInterfaceAt content.toList

/-! ## `get_signatures` -/

/-- The `sigs` list of `get_signatures` before deduplication: the five
rules run in order, each appending its labelled captures. -/
def rawSigs (content : String) : List String :=
  (findClasses content).map (fun c => "Class: " ++ c)
    ++ (findFunctions content).map (fun f => "ƒ: " ++ f)
    ++ (findArrows content).map (fun a => "ƒ: " ++ a)
    ++ (findExports content).map (fun e => "Export: " ++ e)
    ++ (findInterfaces content).map (fun i => "Interface: " ++ i)

/-- Order-preserving deduplication, keeping the first occurrence of each
label: `list(dict.fromkeys(sigs))`. -/
def dedupGo : List String → List String → List String
  | _, [] => []
  | seen, a :: rest =>
    if a ∈ seen then dedupGo seen rest else a :: dedupGo (a :: seen) rest

def pyDedup (l : List String) : List String := dedupGo [] l

/-- Max signatures to list per file. -/
def MAX_SIGNATURES : Nat := 10

/-- The `unique_sigs` list of `get_signatures`. -/
def uniqueSigs (content : String) : List String := pyDedup (rawSigs content)

/-- The truncation marker `f"...(+{n} more)"`. -/
def moreMarker (n : Nat) : String := "...(+" ++ toString n ++ " more)"

/-- `get_signatures`, as a function of the file content (the script reads
the file with `errors='ignore'` and returns `[]` on any read failure;
the claims quantify over the content actually read). -/
def get_signatures (content : String) : List String :=
  if MAX_SIGNATURES < (uniqueSigs content).length then
    (uniqueSigs content).take MAX_SIGNATURES
      ++ [moreMarker ((uniqueSigs content).length - MAX_SIGNATURES)]
  else uniqueSigs content

example : findClasses "class Foo extends Bar { }" = ["Foo"] := by decide
example : findClasses "subclass X" = ["X"] := by decide
example : findFunctions "async function go() {} function stop ()" = ["go", "stop"] := by decide
example : findArrows "const add = async (a, b) => a + b" = ["add"] := by decide
example : findArrows "let f = (a,(b)) => 0" = ["f"] := by decide
example : findArrows "let f = (a\n) => 0" = [] := by decide
example : findExports "module.exports.run = 1; exports.go = 2" = ["run", "go"] := by decide
example : findInterfaces "interface I {}" = ["I"] := by decide
example : get_signatures "class A {} function A() {}" = ["Class: A", "ƒ: A"] := by decide
example :
    get_signatures "class A class B class C class D class E class F class G class H class I class J class K" =
      ["Class: A", "Class: B", "Class: C", "Class: D", "Class: E", "Class: F",
       "Class: G", "Class: H", "Class: I", "Class: J", "...(+1 more)"] := by decide

/-! ## `generate_map` (aa.py, lines 71–107)

The filesystem snapshot seen by one run of `os.walk` is modelled as an
explicit tree: each directory holds its (already enumerated, in
enumeration order) list of `(filename, file content)` pairs and list of
subdirectories.  `os.walk` is top-down, so the script visits a directory,
prunes `dirs` in place against `IGNORE_DIRS`, and then recurses into the
surviving subdirectories in order.  Path strings are tracked exactly as
the script computes them (`os.path.join` with `os.sep = '/'`), since
`level` is derived from `root.replace(start_path, '').count(os.sep)`. -/

def IGNORE_DIRS : List String :=
  ["node_modules", ".git", "dist", "build", "coverage",
   ".next", ".vscode", "__pycache__", ".aider.tags.cache.v4", ".qodo"]

def IGNORE_FILES : List String :=
  ["package-lock.json", "yarn.lock", "pnpm-lock.yaml",
   ".DS_Store", ".env", ".env.local", ".aider.chat.history.md",
   ".aider.input.history", ".gitignore", ".llmignore"]

def CODE_EXTENSIONS : List String := [".js", ".jsx", ".ts", ".tsx", ".mjs", ".cjs"]

/-- `os.path.splitext(f)[1]`: the extension starting at the last dot,
empty when there is no dot or every character before the last dot is a
dot (leading dots of a bare filename never start an extension). -/
def splitextExt (name : String) : String :=
  let cs := name.toList
  match cs.reverse.findIdx? (fun c => c = '.') with
  | none => ""
  | some r =>
    let di := cs.length - 1 - r
    if (cs.take di).all (fun c => c = '.') then "" else String.mk (cs.drop di)

example : splitextExt "a.js" = ".js" := by decide
example : splitextExt ".env" = "" := by decide
example : splitextExt "x.test.tsx" = ".tsx" := by decide
example : splitextExt "Makefile" = "" := by decide

/-- `os.path.basename(root)` for POSIX paths. -/
def pyBasename (s : String) : String :=
  String.mk ((s.toList.reverse.takeWhile (fun c => c ≠ '/')).reverse)

/-- `root.replace(start_path, '').count(os.sep)`. -/
def pyLevel (startPath root : String) : Nat :=
  ((root.replace startPath "").toList.count '/')

def spaces (n : Nat) : String := String.mk (List.replicate n ' ')

/-- A directory as enumerated by one `os.walk` run: name, files in
enumeration order as `(name, content)` pairs, and subdirectories in
enumeration order. -/
inductive FSDir where
  | mk (dname : String) (dfiles : List (String × String)) (subs : List FSDir)

def FSDir.dname : FSDir → String
  | .mk n _ _ => n

def FSDir.dfiles : FSDir → List (String × String)
  | .mk _ fs _ => fs

def FSDir.subs : FSDir → List FSDir
  | .mk _ _ ds => ds

/-- The line rendered for one non-ignored file (aa.py lines 93–105);
reading the file yields `content`. -/
def fileLine (subindent fname content : String) : String :=
  if splitextExt fname ∈ CODE_EXTENSIONS then
    let sigs := get_signatures content
    if sigs.isEmpty then subindent ++ "📄 " ++ fname
    else subindent ++ "📄 " ++ fname ++ "  [" ++ String.intercalate ", " sigs ++ "]"
  else subindent ++ "📄 " ++ fname

/-- The block of `output_lines` contributed by the walk rooted at the
directory whose `os.walk` root string is `root`. -/
def walkDir (startPath : String) : String → FSDir → List String
  | root, .mk _ dfiles subdirs =>
    let level := pyLevel startPath root
    let folderLine :=
      if level = 0 then "📁 PROJECT_ROOT/"
      else spaces (4 * level) ++ "📁 " ++ pyBasename root ++ "/"
    let subindent := spaces (4 * (level + 1))
    let fileLines := (dfiles.filter (fun p => p.1 ∉ IGNORE_FILES)).map
        (fun p => fileLine subindent p.1 p.2)
    let kept := subdirs.filter (fun s => s.dname ∉ IGNORE_DIRS)
    folderLine :: fileLines ++
      (kept.attach.map (fun s => walkDir startPath (root ++ "/" ++ s.1.dname) s.1)).flatten
termination_by _ d => sizeOf d
decreasing_by
  simp_wf
  have h2 := List.sizeOf_lt_of_mem (List.mem_of_mem_filter s.2)
  omega

/-- `generate_map(start_path)` on the snapshot `d` of the tree rooted at
`start_path`. -/
def generate_map (startPath : String) (d : FSDir) : String :=
  String.intercalate "\n" (walkDir startPath startPath d)

/-! ## `_scanproblem.py`

The parsed linter output is an ordered sequence of per-file records; a
JSON object field that may be absent is an `Option`.  `json.loads` is the
standard library's parser, out of scope per the spec; the pipeline is
therefore modelled as a function of the captured subprocess result and of
the parsing function, so that the branch structure of `main` (empty
stdout, undecodable stdout, diagnostics processing) is exactly the
source's.  The log is modelled as the list of strings passed to
`write_log` from line 59 of the script onward (the header lines written
before the subprocess run are fixed and claim-irrelevant). -/

structure LintMessage where
  line : Option Int
  ruleId : Option String
  message : Option String
deriving DecidableEq

structure LintEntry where
  filePath : Option String
  errorCount : Option Int
  messages : Option (List LintMessage)
deriving DecidableEq

structure CmdResult where
  returncode : Int
  stdout : String
  stderr : String

/-- Python's character slice `s[:n]`. -/
def pyTake (s : String) (n : Nat) : String := String.mk (s.toList.take n)

/-- `entry['errorCount']` for every record, in order, failing like the
comprehension `[item for item in data if item['errorCount'] > 0]` does at
the first record without the key (`KeyError('errorCount')`, rendered by
the top-level handler as `'errorCount'`). -/
def checkCounts : List LintEntry → Except String (List (LintEntry × Int))
  | [] => .ok []
  | e :: rest =>
    match e.errorCount with
    | some n => (checkCounts rest).map (fun l => (e, n) :: l)
    | none => .error "'errorCount'"

/-- Stable descending order used by `problem_files.sort(key=lambda x:
x['errorCount'], reverse=True)`: Python's sort is stable, which is
equivalent to sorting the index-decorated list by the linear order
"larger count first, original position first on ties". -/
def countRel (a b : Nat × LintEntry × Int) : Prop :=
  b.2.2 < a.2.2 ∨ (a.2.2 = b.2.2 ∧ a.1 ≤ b.1)

instance : DecidableRel countRel := fun a b =>
  inferInstanceAs (Decidable (b.2.2 < a.2.2 ∨ (a.2.2 = b.2.2 ∧ a.1 ≤ b.1)))

instance : IsTotal (Nat × LintEntry × Int) countRel where
  total a b := by
    rcases Int.lt_trichotomy a.2.2 b.2.2 with h | h | h
    · exact Or.inr (Or.inl h)
    · rcases Nat.le_total a.1 b.1 with h2 | h2
      · exact Or.inl (Or.inr ⟨h, h2⟩)
      · exact Or.inr (Or.inr ⟨h.symm, h2⟩)
    · exact Or.inl (Or.inl h)

instance : IsTrans (Nat × LintEntry × Int) countRel where
  trans a b c hab hbc := by
    rcases hab with h1 | ⟨h1, h1i⟩ <;> rcases hbc with h2 | ⟨h2, h2i⟩
    · exact Or.inl (h2.trans h1)
    · exact Or.inl (h2 ▸ h1)
    · exact Or.inl (h1 ▸ h2)
    · exact Or.inr ⟨h1.trans h2, h1i.trans h2i⟩

/-- Index-decorated filtered-and-sorted diagnostics: the records with
`errorCount > 0` in stable descending `errorCount` order, each carrying
its original position. -/
def problemIdx (data : List LintEntry) : Except String (List (Nat × LintEntry × Int)) :=
  (checkCounts data).map (fun l =>
    ((l.enum.filter (fun p => 0 < p.2.2)).insertionSort countRel))

/-- `problem_files` of `_scanproblem.py` (with each record's checked
`errorCount` alongside). -/
def problem_files (data : List LintEntry) : Except String (List (LintEntry × Int)) :=
  (problemIdx data).map (fun l => l.map (fun p => p.2))

def eq40 : String := String.mk (List.replicate 40 '=')

/-- `text.replace('\n', ' ')`: for a single-character pattern this is a
per-character substitution. -/
def flattenNl (s : String) : String :=
  String.mk (s.toList.map (fun c => if c = '\n' then ' ' else c))

/-- One diagnostic line (line 98–101):
`f"  ❌ Line {line}: [{rule}] {text}"` with the `.get` defaults and
embedded newlines of the message flattened to spaces. -/
def msgChunk (m : LintMessage) : String :=
  "  ❌ Line " ++ toString (m.line.getD 0) ++ ": [" ++ m.ruleId.getD "unknown"
    ++ "] " ++ flattenNl (m.message.getD "") ++ "\n"

/-- The log chunks for one problem record (lines 86–101): the banner then
one line per message.  `os.path.relpath` is wrapped in `try/except: pass`
and maps a bare relative name to itself, so it is the identity on
everything the claims touch and is modelled as such. -/
def entryChunks (p : LintEntry × Int) : List String :=
  let path := p.1.filePath.getD "unknown"
  ("\n" ++ eq40 ++ "\n📄 " ++ path ++ " (" ++ toString p.2 ++ " errors)\n" ++ eq40 ++ "\n")
    :: (p.1.messages.getD []).map msgChunk

/-- Log chunks of step 7 (lines 78–101), including the top-level handler
(lines 105–107) which turns the `KeyError` of the comprehension into a
crash record; at that point the `"Found ..."` line is not yet written. -/
def processData (data : List LintEntry) : List String :=
  match problem_files data with
  | .error e => ["\n🔥 CRITICAL SCRIPT CRASH: " ++ e ++ "\n"]
  | .ok pf =>
    ("Found " ++ toString pf.length ++ " files with errors.\n")
      :: pf.flatMap entryChunks

/-- The `--- STDERR ---` chunk (lines 59–61). -/
def stderrChunks (r : CmdResult) : List String :=
  if 0 < r.stderr.length then
    ["--- STDERR (Errors from ESLint) ---\n" ++ r.stderr ++ "\n\n"]
  else []

/-- Everything `main` appends to the log from line 59 on, as a function
of the captured subprocess result and of the JSON parser. -/
def processResult (r : CmdResult)
    (parse : String → Except String (List LintEntry)) : List String :=
  stderrChunks r ++
    (if r.stdout.length = 0 then
      ["ERROR: ESLint returned empty output. Is ESLint installed?\n"]
    else
      match parse r.stdout with
      | .error _ =>
        ["CRITICAL ERROR: ESLint output was not valid JSON.\n",
         "First 500 chars of raw output:\n" ++ pyTake r.stdout 500 ++ "\n"]
      | .ok data => processData data)

/-! ## Properties of the first-occurrence deduplication -/

theorem dedupGo_sublist (l : List String) : ∀ seen, List.Sublist (dedupGo seen l) l := by
  induction l with
  | nil => intro seen; simp [dedupGo]
  | cons b rest ih =>
    intro seen
    simp only [dedupGo]
    split
    · exact (ih seen).cons b
    · exact (ih (b :: seen)).cons₂ b

theorem mem_dedupGo (l : List String) :
    ∀ (seen : List String) (a : String), a ∈ dedupGo seen l ↔ (a ∈ l ∧ a ∉ seen) := by
  induction l with
  | nil => intro seen a; simp [dedupGo]
  | cons b rest ih =>
    intro seen a
    simp only [dedupGo]
    split
    · rename_i hb
      rw [ih]
      simp only [List.mem_cons]
      constructor
      · rintro ⟨h1, h2⟩
        exact ⟨Or.inr h1, h2⟩
      · rintro ⟨h1 | h1, h2⟩
        · exact absurd (h1 ▸ hb) h2
        · exact ⟨h1, h2⟩
    · rename_i hb
      simp only [List.mem_cons, ih]
      constructor
      · rintro (rfl | ⟨h1, h2⟩)
        · exact ⟨Or.inl rfl, hb⟩
        · exact ⟨Or.inr h1, fun hc => h2 (List.mem_cons.mp (List.mem_cons_of_mem b hc))⟩
      · rintro ⟨h1 | h1, h2⟩
        · exact Or.inl h1
        · by_cases hab : a = b
          · exact Or.inl hab
          · exact Or.inr ⟨h1, by simp [List.mem_cons, hab, h2]⟩

theorem nodup_dedupGo (l : List String) : ∀ seen, (dedupGo seen l).Nodup := by
  induction l with
  | nil => intro seen; simp [dedupGo]
  | cons b rest ih =>
    intro seen
    simp only [dedupGo]
    split
    · exact ih seen
    · refine List.Nodup.cons ?_ (ih (b :: seen))
      intro hmem
      exact ((mem_dedupGo rest (b :: seen) b).mp hmem).2 (List.mem_cons_self b seen)

theorem dedupGo_filter (p : String → Bool) (l : List String) :
    ∀ seen, (dedupGo seen l).filter p = dedupGo (seen.filter p) (l.filter p) := by
  induction l with
  | nil => intro seen; simp [dedupGo]
  | cons b rest ih =>
    intro seen
    simp only [dedupGo]
    split
    · rename_i hb
      rw [List.filter_cons]
      by_cases hp : p b
      · simp only [hp, if_true]
        have hbm : b ∈ seen.filter p := List.mem_filter.mpr ⟨hb, hp⟩
        simp [dedupGo, hbm, ih seen]
      · simp [hp, ih seen]
    · rename_i hb
      rw [List.filter_cons]
      by_cases hp : p b
      · have hbm : b ∉ seen.filter p := fun hc => hb (List.mem_filter.mp hc).1
        rw [List.filter_cons]
        simp only [hp, if_true, dedupGo, hbm, if_neg, ih (b :: seen), List.filter_cons]
        simp [hp]
      · rw [List.filter_cons]
        simp only [hp, Bool.false_eq_true, if_false, ih (b :: seen), List.filter_cons]

theorem dedupGo_indexOf (l : List String) :
    ∀ (seen : List String) (a : String), a ∈ l → a ∉ seen →
      (dedupGo seen l).indexOf a = (dedupGo seen (l.take (l.indexOf a))).length := by
  induction l with
  | nil => intro seen a h; cases h
  | cons b rest ih =>
    intro seen a hmem hseen
    by_cases hab : b = a
    · subst hab
      rw [List.indexOf_cons_self]
      simp [dedupGo, hseen, List.indexOf_cons_self]
    · rw [List.indexOf_cons_ne rest hab]
      have hrest : a ∈ rest := by
        rcases List.mem_cons.mp hmem with h | h
        · exact absurd h.symm hab
        · exact h
      simp only [List.take_succ_cons, dedupGo]
      split
      · exact ih seen a hrest hseen
      · rename_i hb
        have hnot : a ∉ b :: seen := by
          intro hc
          rcases List.mem_cons.mp hc with h | h
          · exact hab h.symm
          · exact hseen h
        rw [List.indexOf_cons_ne _ hab, ih (b :: seen) a hrest hnot]
        simp

theorem pyDedup_sublist (l : List String) : List.Sublist (pyDedup l) l := dedupGo_sublist l []

theorem mem_pyDedup (l : List String) (a : String) : a ∈ pyDedup l ↔ a ∈ l := by
  rw [pyDedup, mem_dedupGo]
  simp

theorem nodup_pyDedup (l : List String) : (pyDedup l).Nodup := nodup_dedupGo l []

theorem pyDedup_filter (p : String → Bool) (l : List String) :
    (pyDedup l).filter p = pyDedup (l.filter p) := by
  have := dedupGo_filter p l []
  simpa [pyDedup] using this

theorem pyDedup_indexOf (l : List String) (a : String) (h : a ∈ l) :
    (pyDedup l).indexOf a = (pyDedup (l.take (l.indexOf a))).length := by
  exact dedupGo_indexOf l [] a h (by simp)

theorem pyDedup_count (l : List String) (a : String) (h : a ∈ l) :
    (pyDedup l).count a = 1 :=
  List.count_eq_one_of_mem (nodup_pyDedup l) ((mem_pyDedup l a).mpr h)

/-! ## Helper lemmas for the report pipeline -/

theorem checkCounts_isOk (data : List LintEntry)
    (h : ∀ e ∈ data, e.errorCount ≠ none) :
    ∃ c, checkCounts data = .ok c := by
  induction data with
  | nil => exact ⟨[], rfl⟩
  | cons e rest ih =>
    obtain ⟨c, hc⟩ := ih (fun x hx => h x (List.mem_cons_of_mem e hx))
    cases he : e.errorCount with
    | none => exact absurd he (h e (List.mem_cons_self e rest))
    | some n =>
      refine ⟨(e, n) :: c, ?_⟩
      simp [checkCounts, he, hc, Except.map]

theorem checkCounts_err (data : List LintEntry)
    (h : ∃ e ∈ data, e.errorCount = none) :
    checkCounts data = .error "'errorCount'" := by
  induction data with
  | nil => obtain ⟨e, he, _⟩ := h; cases he
  | cons e rest ih =>
    cases he : e.errorCount with
    | none => simp [checkCounts, he]
    | some n =>
      obtain ⟨x, hx, hxn⟩ := h
      rcases List.mem_cons.mp hx with rfl | hx
      · rw [he] at hxn; cases hxn
      · rw [checkCounts, he, ih ⟨x, hx, hxn⟩]
        rfl

/-! ## Claim theorems for the report pipeline -/

/-- C5: for every parsed sequence of per-file diagnostic records
(each record having its `errorCount` key, as the comprehension demands),
the report processes exactly the records with a nonzero error count, in
descending order of error count, ties keeping their original relative
order.  The processed list `l` carries each record's original position;
`countRel` is "strictly larger count, or equal count and not-later
original position", so `l.Pairwise countRel` states descending order with
stable ties, and the permutation conjunct states that exactly the
nonzero-count records are processed.  (The `[3, 0, 7, 1] ↦ [7, 3, 1]`
instance is checked in the witness.) -/
theorem c5_problem_sort (data : List LintEntry) (l : List (Nat × LintEntry × Int))
    (h : problemIdx data = .ok l) :
    (∀ p ∈ l, 0 < p.2.2)
    ∧ l.Pairwise countRel
    ∧ (∃ c, checkCounts data = .ok c
        ∧ l.Perm (c.enum.filter (fun p => 0 < p.2.2)))
    ∧ problem_files data = .ok (l.map (fun p => p.2)) := by
  obtain ⟨c, hc, rfl⟩ :
      ∃ c, checkCounts data = .ok c
        ∧ l = (c.enum.filter (fun p => 0 < p.2.2)).insertionSort countRel := by
    unfold problemIdx at h
    cases hcc : checkCounts data with
    | error e => rw [hcc] at h; cases h
    | ok c =>
      rw [hcc] at h
      exact ⟨c, rfl, (Except.ok.inj h).symm⟩
  refine ⟨?_, ?_, ⟨c, hc, List.perm_insertionSort _ _⟩, ?_⟩
  · intro p hp
    have hp2 := (List.mem_insertionSort countRel).mp hp
    have := (List.mem_filter.mp hp2).2
    exact of_decide_eq_true this
  · exact List.sorted_insertionSort countRel _
  · unfold problem_files problemIdx
    rw [hc]
    rfl

def exData5 : List LintEntry :=
  [⟨some "a.js", some 3, some []⟩, ⟨some "b.js", some 0, some []⟩,
   ⟨some "c.js", some 7, some []⟩, ⟨some "d.js", some 1, some []⟩]

def exSorted5 : List (Nat × LintEntry × Int) :=
  [(2, ⟨some "c.js", some 7, some []⟩, 7), (0, ⟨some "a.js", some 3, some []⟩, 3),
   (3, ⟨some "d.js", some 1, some []⟩, 1)]

set_option maxRecDepth 4000 in
/-- C5 witness: records with error counts `[3, 0, 7, 1]` are processed as
exactly the three nonzero entries in order `[7, 3, 1]`. -/
theorem c5_problem_sort_wit :
    problemIdx exData5 = .ok exSorted5
    ∧ exSorted5.map (fun p => p.2.2) = [7, 3, 1]
    ∧ exSorted5.Pairwise countRel
    ∧ (∀ p ∈ exSorted5, 0 < p.2.2) := by
  refine ⟨rfl, rfl, ?_, ?_⟩
  · exact (c5_problem_sort exData5 exSorted5 rfl).2.1
  · exact (c5_problem_sort exData5 exSorted5 rfl).1

/-- C6: a captured stdout of length zero makes the report writer log the
explicit empty-output error line and return; no JSON parsing and no
diagnostic processing happens (the output does not depend on the parser
at all), so empty output is never treated as zero diagnostics. -/
theorem c6_empty_stdout (r : CmdResult)
    (parse : String → Except String (List LintEntry))
    (h : r.stdout.length = 0) :
    processResult r parse
      = stderrChunks r ++ ["ERROR: ESLint returned empty output. Is ESLint installed?\n"]
    ∧ ∀ parse2, processResult r parse = processResult r parse2 := by
  constructor
  · unfold processResult
    rw [if_pos h]
  · intro parse2
    unfold processResult
    rw [if_pos h, if_pos h]

/-- C6 witness at a concrete empty-stdout result. -/
theorem c6_empty_stdout_wit :
    processResult ⟨1, "", "some warning"⟩ (fun _ => .ok [])
      = ["--- STDERR (Errors from ESLint) ---\nsome warning\n\n",
         "ERROR: ESLint returned empty output. Is ESLint installed?\n"] := by
  rw [(c6_empty_stdout ⟨1, "", "some warning"⟩ (fun _ => .ok []) rfl).1]
  rfl

/-- C7: a non-empty captured stdout that the JSON parser rejects takes
the malformed-output branch: the log gets the marked error record and
then the first 500 characters of the raw output verbatim, and nothing
else is processed. -/
theorem c7_malformed_json (r : CmdResult)
    (parse : String → Except String (List LintEntry)) (msg : String)
    (h0 : ¬ r.stdout.length = 0) (h : parse r.stdout = .error msg) :
    processResult r parse
      = stderrChunks r
          ++ ["CRITICAL ERROR: ESLint output was not valid JSON.\n",
              "First 500 chars of raw output:\n" ++ pyTake r.stdout 500 ++ "\n"] := by
  unfold processResult
  rw [if_neg h0, h]

/-- C7 witness: the concrete stdout `"not json"` (with a parser that
rejects it, as `json.loads` does) produces the malformed-output error
record quoting `"not json"` verbatim. -/
theorem c7_malformed_json_wit :
    processResult ⟨2, "not json", ""⟩
        (fun _ => .error "Expecting value: line 1 column 1 (char 0)")
      = ["CRITICAL ERROR: ESLint output was not valid JSON.\n",
         "First 500 chars of raw output:\nnot json\n"] := by
  rw [c7_malformed_json ⟨2, "not json", ""⟩
    (fun _ => .error "Expecting value: line 1 column 1 (char 0)")
    "Expecting value: line 1 column 1 (char 0)" (by decide) rfl]
  rfl

/-- C10: per-record and per-message `.get` defaults of the report
writer: a missing `filePath` renders as `unknown`, a missing `line` as
`0`, a missing `ruleId` as `unknown`, a missing `message` as the empty
string, all without aborting the run (the report is still produced for
any record list whose members all carry `errorCount`); only a missing
`errorCount` key escapes the defaults and reaches the top-level
catch-all handler, which logs the crash record instead of a report. -/
theorem c10_field_defaults :
    (∀ r t, msgChunk ⟨none, r, t⟩ = msgChunk ⟨some 0, r, t⟩)
    ∧ (∀ ln t, msgChunk ⟨ln, none, t⟩ = msgChunk ⟨ln, some "unknown", t⟩)
    ∧ (∀ ln r, msgChunk ⟨ln, r, none⟩ = msgChunk ⟨ln, r, some ""⟩)
    ∧ (∀ ec ms n, entryChunks (⟨none, ec, ms⟩, n) = entryChunks (⟨some "unknown", ec, ms⟩, n))
    ∧ (∀ data, (∀ e ∈ data, e.errorCount ≠ none) →
        ∃ pf, problem_files data = .ok pf
          ∧ processData data
              = ("Found " ++ toString pf.length ++ " files with errors.\n")
                  :: pf.flatMap entryChunks)
    ∧ (∀ data, (∃ e ∈ data, e.errorCount = none) →
        processData data = ["\n🔥 CRITICAL SCRIPT CRASH: 'errorCount'\n"]) := by
  refine ⟨fun r t => rfl, fun ln t => rfl, fun ln r => rfl, fun ec ms n => rfl, ?_, ?_⟩
  · intro data h
    obtain ⟨c, hc⟩ := checkCounts_isOk data h
    refine ⟨((c.enum.filter (fun p => 0 < p.2.2)).insertionSort countRel).map (fun p => p.2), ?_, ?_⟩
    · unfold problem_files problemIdx
      rw [hc]
      rfl
    · unfold processData problem_files problemIdx
      rw [hc]
      rfl
  · intro data h
    unfold processData problem_files problemIdx
    rw [checkCounts_err data h]
    rfl

/-- C10 witness: a record with `filePath` and `messages` missing but
`errorCount` present is reported with the defaults; a record missing
`errorCount` crashes into the catch-all record; a message with all three
fields missing renders with `0`, `unknown` and the empty string. -/
theorem c10_field_defaults_wit :
    msgChunk ⟨none, none, none⟩ = "  ❌ Line 0: [unknown] \n"
    ∧ processData [⟨some "x.js", none, none⟩]
        = ["\n🔥 CRITICAL SCRIPT CRASH: 'errorCount'\n"]
    ∧ entryChunks (⟨none, some 2, none⟩, 2)
        = entryChunks (⟨some "unknown", some 2, none⟩, 2) := by
  refine ⟨?_, ?_, ?_⟩
  · rw [c10_field_defaults.1 none none, c10_field_defaults.2.1 (some 0) none,
      c10_field_defaults.2.2.1 (some 0) (some "unknown")]
    decide
  · exact c10_field_defaults.2.2.2.2.2 [⟨some "x.js", none, none⟩]
      ⟨⟨some "x.js", none, none⟩, List.mem_cons_self _ _, rfl⟩
  · exact c10_field_defaults.2.2.2.1 (some 2) none 2

/-! ## Claim theorems for `get_signatures` -/

/-- C1 counterexample: with eleven distinct class declarations the
truncation at `MAX_SIGNATURES = 10` drops the label of the eleventh
class entirely, so content containing the class declaration `K` yields a
signature list with zero (not one) `"Class: K"` entries. -/
theorem c1_truncation_cex :
    "K" ∈ findClasses
        "class A class B class C class D class E class F class G class H class I class J class K"
    ∧ ¬ ((get_signatures
        "class A class B class C class D class E class F class G class H class I class J class K").count
          ("Class: " ++ "K") = 1) := by
  constructor
  · decide
  · decide

/-- C1 (amended): for any file content containing a class declaration
named `X` (in the sense that the class rule captures `X`), the signature
list contains exactly one `"Class: X"` entry, no matter how many rules or
repeated occurrences match, provided the deduplicated signature list does
not exceed `MAX_SIGNATURES` (beyond that, truncation can drop the label
altogether, as the counterexample shows). -/
theorem c1_class_label_exactly_once (content X : String)
    (hX : X ∈ findClasses content)
    (hlen : (uniqueSigs content).length ≤ MAX_SIGNATURES) :
    (get_signatures content).count ("Class: " ++ X) = 1 := by
  have hmem : ("Class: " ++ X) ∈ rawSigs content := by
    simp only [rawSigs, List.mem_append, List.mem_map]
    exact Or.inl (Or.inl (Or.inl (Or.inl ⟨X, hX, rfl⟩)))
  have hgs : get_signatures content = uniqueSigs content := by
    unfold get_signatures
    rw [if_neg (by omega)]
  rw [hgs]
  exact pyDedup_count _ _ hmem

/-- C1 witness at a small content with one class declaration. -/
theorem c1_class_label_exactly_once_wit :
    "Foo" ∈ findClasses "class Foo extends Bar { }"
    ∧ (uniqueSigs "class Foo extends Bar { }").length ≤ MAX_SIGNATURES
    ∧ (get_signatures "class Foo extends Bar { }").count ("Class: " ++ "Foo") = 1 :=
  ⟨by decide, by decide,
    c1_class_label_exactly_once "class Foo extends Bar { }" "Foo" (by decide) (by decide)⟩

/-- C2: when the deduplicated list exceeds `MAX_SIGNATURES`, the
returned list is exactly the first `MAX_SIGNATURES` entries followed by
the single `"...(+N more)"` marker carrying the exact omitted count —
hence exactly `MAX_SIGNATURES + 1` entries with the marker last; at or
under the maximum, the list is returned untruncated with no marker. -/
theorem c2_truncation (content : String) :
    (MAX_SIGNATURES < (uniqueSigs content).length →
      get_signatures content
        = (uniqueSigs content).take MAX_SIGNATURES
            ++ [moreMarker ((uniqueSigs content).length - MAX_SIGNATURES)]
      ∧ (get_signatures content).length = MAX_SIGNATURES + 1
      ∧ (get_signatures content).getLast?
          = some (moreMarker ((uniqueSigs content).length - MAX_SIGNATURES)))
    ∧ ((uniqueSigs content).length ≤ MAX_SIGNATURES →
        get_signatures content = uniqueSigs content) := by
  constructor
  · intro h
    have hgs : get_signatures content
        = (uniqueSigs content).take MAX_SIGNATURES
            ++ [moreMarker ((uniqueSigs content).length - MAX_SIGNATURES)] := by
      unfold get_signatures
      rw [if_pos h]
    refine ⟨hgs, ?_, ?_⟩
    · rw [hgs]
      simp only [List.length_append, List.length_take, List.length_cons, List.length_nil]
      omega
    · rw [hgs]
      exact List.getLast?_concat _
  · intro h
    unfold get_signatures
    rw [if_neg (by omega)]

/-- C2 witness: eleven distinct labels truncate to `10 + 1` entries with
the marker `"...(+1 more)"` last; two distinct labels pass through. -/
theorem c2_truncation_wit :
    MAX_SIGNATURES < (uniqueSigs
      "class A class B class C class D class E class F class G class H class I class J class K").length
    ∧ (get_signatures
      "class A class B class C class D class E class F class G class H class I class J class K").length
        = MAX_SIGNATURES + 1
    ∧ (uniqueSigs "class A function B()").length ≤ MAX_SIGNATURES
    ∧ get_signatures "class A function B()" = uniqueSigs "class A function B()" :=
  ⟨by decide,
   ((c2_truncation
      "class A class B class C class D class E class F class G class H class I class J class K").1
      (by decide)).2.1,
   by decide,
   (c2_truncation "class A function B()").2 (by decide)⟩

/-- C3 counterexample: content producing the label `"Class: K"` twice
whose first occurrence lies beyond the truncation bound: the returned
list contains the label zero times, not once. -/
theorem c3_truncation_cex :
    2 ≤ (rawSigs
        "class A class B class C class D class E class F class G class H class I class J class K class K").count
          "Class: K"
    ∧ ¬ ((get_signatures
        "class A class B class C class D class E class F class G class H class I class J class K class K").count
          "Class: K" = 1) := by
  constructor
  · decide
  · decide

/-- C3 (amended): for content producing the same label more than once,
the returned list contains the label exactly once, at the position of its
first occurrence (its index equals the number of distinct labels produced
strictly before its first occurrence), provided the deduplicated list
does not exceed `MAX_SIGNATURES` (beyond that, truncation can drop the
label, as the counterexample shows).  Deduplication compares final label
strings exactly. -/
theorem c3_dedup_first_position (content lab : String)
    (hdup : 2 ≤ (rawSigs content).count lab)
    (hlen : (uniqueSigs content).length ≤ MAX_SIGNATURES) :
    (get_signatures content).count lab = 1
    ∧ (get_signatures content).indexOf lab
        = (pyDedup ((rawSigs content).take ((rawSigs content).indexOf lab))).length := by
  have hmem : lab ∈ rawSigs content := List.count_pos_iff.mp (by omega)
  have hgs : get_signatures content = uniqueSigs content := by
    unfold get_signatures
    rw [if_neg (by omega)]
  rw [hgs]
  exact ⟨pyDedup_count _ _ hmem, pyDedup_indexOf _ _ hmem⟩

/-- C3 witness: `class A class A` produces `"Class: A"` twice and the
returned list holds it once, in first position. -/
theorem c3_dedup_first_position_wit :
    2 ≤ (rawSigs "class A class A").count "Class: A"
    ∧ (uniqueSigs "class A class A").length ≤ MAX_SIGNATURES
    ∧ (get_signatures "class A class A").count "Class: A" = 1
    ∧ (get_signatures "class A class A").indexOf "Class: A" = 0 := by
  refine ⟨by decide, by decide, ?_, ?_⟩
  · exact (c3_dedup_first_position "class A class A" "Class: A" (by decide) (by decide)).1
  · rw [(c3_dedup_first_position "class A class A" "Class: A" (by decide) (by decide)).2]
    decide

/-! ## Claim theorems for `generate_map` -/

/-- C4: rendering the map twice on an unchanged directory tree yields
byte-identical output.  `generate_map` is a pure function of the start
path and of the filesystem snapshot (the snapshot includes the
enumeration order `os.walk` sees, which is part of "identical filesystem
state"; across differing filesystem states the enumeration order, and
hence the output, may differ — the spec notes this), so two runs on the
same state produce the same text. -/
theorem c4_map_deterministic (startPath1 startPath2 : String) (d1 d2 : FSDir)
    (hs : startPath1 = startPath2) (hd : d1 = d2) :
    generate_map startPath1 d1 = generate_map startPath2 d2 := by
  rw [hs, hd]

/-- C4 witness at a concrete snapshot. -/
theorem c4_map_deterministic_wit :
    generate_map "/p" (.mk "p" [("a.js", "class A")] [])
      = generate_map "/p" (.mk "p" [("a.js", "class A")] []) :=
  c4_map_deterministic "/p" "/p" _ _ rfl rfl

/-- Unfolded form of one `os.walk` visit. -/
theorem walkDir_mk (startPath root nm : String) (dfiles : List (String × String))
    (subdirs : List FSDir) :
    walkDir startPath root (.mk nm dfiles subdirs)
      = (if pyLevel startPath root = 0 then "📁 PROJECT_ROOT/"
         else spaces (4 * pyLevel startPath root) ++ "📁 " ++ pyBasename root ++ "/")
        :: ((dfiles.filter (fun p => p.1 ∉ IGNORE_FILES)).map
              (fun p => fileLine (spaces (4 * (pyLevel startPath root + 1))) p.1 p.2))
        ++ ((subdirs.filter (fun s => s.dname ∉ IGNORE_DIRS)).map
              (fun s => walkDir startPath (root ++ "/" ++ s.dname) s)).flatten := by
  rw [walkDir]
  rw [List.attach_map_val (subdirs.filter (fun s => s.dname ∉ IGNORE_DIRS))
    (fun s => walkDir startPath (root ++ "/" ++ s.dname) s)]

/-- The tree with every ignored-name subdirectory removed, at every
depth (the starting directory itself is rendered as `PROJECT_ROOT` and is
never name-checked by the source). -/
def pruneIgnored : FSDir → FSDir
  | .mk nm dfiles subdirs =>
    .mk nm dfiles
      (((subdirs.filter (fun s => s.dname ∉ IGNORE_DIRS)).attach).map
        (fun s => pruneIgnored s.1))
termination_by d => sizeOf d
decreasing_by
  simp_wf
  have h2 := List.sizeOf_lt_of_mem (List.mem_of_mem_filter s.2)
  omega

theorem pruneIgnored_mk (nm : String) (dfiles : List (String × String))
    (subdirs : List FSDir) :
    pruneIgnored (.mk nm dfiles subdirs)
      = .mk nm dfiles
          ((subdirs.filter (fun s => s.dname ∉ IGNORE_DIRS)).map pruneIgnored) := by
  rw [pruneIgnored]
  rw [List.attach_map_val (subdirs.filter (fun s => s.dname ∉ IGNORE_DIRS)) pruneIgnored]

theorem pruneIgnored_dname (d : FSDir) : (pruneIgnored d).dname = d.dname := by
  cases d with
  | mk nm dfiles subdirs =>
    rw [pruneIgnored_mk]
    rfl

/-- C8: a directory whose name is in `IGNORE_DIRS`, wherever it appears
below the walked root, contributes nothing: the whole walk renders
exactly the same lines as the walk of the tree with every ignored
subdirectory (and everything inside it) removed, i.e. ignored directories
produce no line and nothing inside them is visited or scanned — `os.walk`
prunes `dirs` in place before descending. -/
theorem c8_ignored_dirs_pruned : ∀ (d : FSDir) (startPath root : String),
    walkDir startPath root (pruneIgnored d) = walkDir startPath root d
  | .mk nm dfiles subdirs, startPath, root => by
    rw [pruneIgnored_mk, walkDir_mk, walkDir_mk]
    suffices h :
        (((subdirs.filter (fun s => s.dname ∉ IGNORE_DIRS)).map pruneIgnored).filter
              (fun s => s.dname ∉ IGNORE_DIRS)).map
            (fun s => walkDir startPath (root ++ "/" ++ s.dname) s)
          = (subdirs.filter (fun s => s.dname ∉ IGNORE_DIRS)).map
              (fun s => walkDir startPath (root ++ "/" ++ s.dname) s) by
      rw [h]
    rw [List.filter_map]
    have hfc : (subdirs.filter (fun s => s.dname ∉ IGNORE_DIRS)).filter
          ((fun s => decide (s.dname ∉ IGNORE_DIRS)) ∘ pruneIgnored)
        = subdirs.filter (fun s => s.dname ∉ IGNORE_DIRS) := by
      rw [List.filter_congr (q := fun s => decide (s.dname ∉ IGNORE_DIRS))
        (fun s _ => by simp [Function.comp, pruneIgnored_dname])]
      rw [List.filter_filter]
      exact List.filter_congr (fun s _ => by simp)
    rw [hfc, List.map_map]
    refine List.map_congr_left (fun s hs => ?_)
    have hd := pruneIgnored_dname s
    simp only [Function.comp]
    rw [hd, c8_ignored_dirs_pruned s startPath (root ++ "/" ++ s.dname)]
termination_by d => sizeOf d
decreasing_by
  simp_wf
  have h2 := List.sizeOf_lt_of_mem (List.mem_of_mem_filter hs)
  omega

/-! ## Claim C9: category ordering of the signature list

The five rules run one after the other, so the final list is ordered by
rule category, not by position of the symbols in the file.  `sigRank`
classifies a final label by its leading tag. -/

def sigRank (s : String) : Nat :=
  if "Class: ".toList.isPrefixOf s.data then 0
  else if "ƒ: ".toList.isPrefixOf s.data then 1
  else if "Export: ".toList.isPrefixOf s.data then 2
  else if "Interface: ".toList.isPrefixOf s.data then 3
  else 4

theorem isPre_append : ∀ (p t : List Char), p.isPrefixOf (p ++ t) = true
  | [], _ => by simp [List.isPrefixOf]
  | a :: p, t => by simp [List.isPrefixOf, isPre_append p t]

theorem isPre_ne_head (a b : Char) (h : ¬ a = b) (p t : List Char) :
    (a :: p).isPrefixOf (b :: t) = false := by
  simp [List.isPrefixOf, h]

theorem sigRank_class (x : String) : sigRank ("Class: " ++ x) = 0 := by
  have h : "Class: ".toList.isPrefixOf (("Class: " ++ x).data) = true := by
    rw [String.data_append]
    exact isPre_append _ _
  simp [sigRank, h]

theorem sigRank_fn (x : String) : sigRank ("ƒ: " ++ x) = 1 := by
  have h1 : "Class: ".toList.isPrefixOf (("ƒ: " ++ x).data) = false := by
    rw [String.data_append]
    exact isPre_ne_head 'C' 'ƒ' (by decide) _ _
  have h2 : "ƒ: ".toList.isPrefixOf (("ƒ: " ++ x).data) = true := by
    rw [String.data_append]
    exact isPre_append _ _
  simp [sigRank, h1, h2]

theorem sigRank_export (x : String) : sigRank ("Export: " ++ x) = 2 := by
  have h1 : "Class: ".toList.isPrefixOf (("Export: " ++ x).data) = false := by
    rw [String.data_append]
    exact isPre_ne_head 'C' 'E' (by decide) _ _
  have h2 : "ƒ: ".toList.isPrefixOf (("Export: " ++ x).data) = false := by
    rw [String.data_append]
    exact isPre_ne_head 'ƒ' 'E' (by decide) _ _
  have h3 : "Export: ".toList.isPrefixOf (("Export: " ++ x).data) = true := by
    rw [String.data_append]
    exact isPre_append _ _
  simp [sigRank, h1, h2, h3]

theorem sigRank_interface (x : String) : sigRank ("Interface: " ++ x) = 3 := by
  have h1 : "Class: ".toList.isPrefixOf (("Interface: " ++ x).data) = false := by
    rw [String.data_append]
    exact isPre_ne_head 'C' 'I' (by decide) _ _
  have h2 : "ƒ: ".toList.isPrefixOf (("Interface: " ++ x).data) = false := by
    rw [String.data_append]
    exact isPre_ne_head 'ƒ' 'I' (by decide) _ _
  have h3 : "Export: ".toList.isPrefixOf (("Interface: " ++ x).data) = false := by
    rw [String.data_append]
    exact isPre_ne_head 'E' 'I' (by decide) _ _
  have h4 : "Interface: ".toList.isPrefixOf (("Interface: " ++ x).data) = true := by
    rw [String.data_append]
    exact isPre_append _ _
  simp [sigRank, h1, h2, h3, h4]

theorem sigRank_marker (n : Nat) : sigRank (moreMarker n) = 4 := by
  have h1 : "Class: ".toList.isPrefixOf ((moreMarker n).data) = false := by
    unfold moreMarker
    rw [String.data_append, String.data_append]
    exact isPre_ne_head 'C' '.' (by decide) _ _
  have h2 : "ƒ: ".toList.isPrefixOf ((moreMarker n).data) = false := by
    unfold moreMarker
    rw [String.data_append, String.data_append]
    exact isPre_ne_head 'ƒ' '.' (by decide) _ _
  have h3 : "Export: ".toList.isPrefixOf ((moreMarker n).data) = false := by
    unfold moreMarker
    rw [String.data_append, String.data_append]
    exact isPre_ne_head 'E' '.' (by decide) _ _
  have h4 : "Interface: ".toList.isPrefixOf ((moreMarker n).data) = false := by
    unfold moreMarker
    rw [String.data_append, String.data_append]
    exact isPre_ne_head 'I' '.' (by decide) _ _
  unfold sigRank
  rw [h1, h2, h3, h4]
  simp

theorem sigRank_le_four (s : String) : sigRank s ≤ 4 := by
  unfold sigRank
  split_ifs <;> omega

theorem filter_rank_eq (k : Nat) (l : List String) (h : ∀ s ∈ l, sigRank s = k) :
    l.filter (fun s => sigRank s == k) = l :=
  List.filter_eq_self.mpr (fun a ha => by simp [h a ha])

theorem filter_rank_ne (k j : Nat) (hkj : ¬ j = k) (l : List String)
    (h : ∀ s ∈ l, sigRank s = j) :
    l.filter (fun s => sigRank s == k) = [] :=
  List.filter_eq_nil_iff.mpr (fun a ha => by
    simp only [h a ha, beq_iff_eq]
    exact hkj)


/-- C9: the signature list returned by the extractor is ordered by rule
category — class labels first, then function/arrow labels, then export
labels, then interface labels (the truncation marker, when present, is
last) — not by overall position of the symbols in the file; within each
category the labels are exactly the deduplicated captures of that
category's rules in textual match order.  `sigRank` classifies a label by
its tag, the pairwise conjunct states the category ordering of the
returned list, and the filter conjuncts characterise each category block
of the deduplicated list. -/
theorem c9_category_order (content : String) :
    (get_signatures content).Pairwise (fun a b => sigRank a ≤ sigRank b)
    ∧ (uniqueSigs content).filter (fun s => sigRank s == 0)
        = pyDedup ((findClasses content).map (fun c => "Class: " ++ c))
    ∧ (uniqueSigs content).filter (fun s => sigRank s == 1)
        = pyDedup ((findFunctions content).map (fun f => "ƒ: " ++ f)
            ++ (findArrows content).map (fun a => "ƒ: " ++ a))
    ∧ (uniqueSigs content).filter (fun s => sigRank s == 2)
        = pyDedup ((findExports content).map (fun e => "Export: " ++ e))
    ∧ (uniqueSigs content).filter (fun s => sigRank s == 3)
        = pyDedup ((findInterfaces content).map (fun i => "Interface: " ++ i)) := by
  have hA : ∀ s ∈ (findClasses content).map (fun c => "Class: " ++ c), sigRank s = 0 := by
    intro s hs
    obtain ⟨c, _, rfl⟩ := List.mem_map.mp hs
    exact sigRank_class c
  have hB : ∀ s ∈ (findFunctions content).map (fun f => "ƒ: " ++ f), sigRank s = 1 := by
    intro s hs
    obtain ⟨c, _, rfl⟩ := List.mem_map.mp hs
    exact sigRank_fn c
  have hC : ∀ s ∈ (findArrows content).map (fun a => "ƒ: " ++ a), sigRank s = 1 := by
    intro s hs
    obtain ⟨c, _, rfl⟩ := List.mem_map.mp hs
    exact sigRank_fn c
  have hD : ∀ s ∈ (findExports content).map (fun e => "Export: " ++ e), sigRank s = 2 := by
    intro s hs
    obtain ⟨c, _, rfl⟩ := List.mem_map.mp hs
    exact sigRank_export c
  have hE : ∀ s ∈ (findInterfaces content).map (fun i => "Interface: " ++ i),
      sigRank s = 3 := by
    intro s hs
    obtain ⟨c, _, rfl⟩ := List.mem_map.mp hs
    exact sigRank_interface c
  have hAB : ∀ a ∈ (findClasses content).map (fun c => "Class: " ++ c)
        ++ (findFunctions content).map (fun f => "ƒ: " ++ f), sigRank a ≤ 1 := by
    intro a ha
    rcases List.mem_append.mp ha with h | h
    · rw [hA a h]
      omega
    · rw [hB a h]
  have hABC : ∀ a ∈ (findClasses content).map (fun c => "Class: " ++ c)
        ++ (findFunctions content).map (fun f => "ƒ: " ++ f)
        ++ (findArrows content).map (fun a => "ƒ: " ++ a), sigRank a ≤ 1 := by
    intro a ha
    rcases List.mem_append.mp ha with h | h
    · exact hAB a h
    · rw [hC a h]
  have hABCD : ∀ a ∈ (findClasses content).map (fun c => "Class: " ++ c)
        ++ (findFunctions content).map (fun f => "ƒ: " ++ f)
        ++ (findArrows content).map (fun a => "ƒ: " ++ a)
        ++ (findExports content).map (fun e => "Export: " ++ e), sigRank a ≤ 2 := by
    intro a ha
    rcases List.mem_append.mp ha with h | h
    · have := hABC a h
      omega
    · rw [hD a h]
  have hraw : (rawSigs content).Pairwise (fun a b => sigRank a ≤ sigRank b) := by
    unfold rawSigs
    refine List.pairwise_append.mpr ⟨?_, ?_, ?_⟩
    · refine List.pairwise_append.mpr ⟨?_, ?_, ?_⟩
      · refine List.pairwise_append.mpr ⟨?_, ?_, ?_⟩
        · refine List.pairwise_append.mpr ⟨?_, ?_, ?_⟩
          · exact List.pairwise_of_forall_mem_list (fun a ha b hb => by
              rw [hA a ha, hA b hb])
          · exact List.pairwise_of_forall_mem_list (fun a ha b hb => by
              rw [hB a ha, hB b hb])
          · intro a ha b hb
            rw [hA a ha]
            exact Nat.zero_le _
        · exact List.pairwise_of_forall_mem_list (fun a ha b hb => by
            rw [hC a ha, hC b hb])
        · intro a ha b hb
          rw [hC b hb]
          exact hAB a ha
      · exact List.pairwise_of_forall_mem_list (fun a ha b hb => by
          rw [hD a ha, hD b hb])
      · intro a ha b hb
        rw [hD b hb]
        have := hABC a ha
        omega
    · exact List.pairwise_of_forall_mem_list (fun a ha b hb => by
        rw [hE a ha, hE b hb])
    · intro a ha b hb
      rw [hE b hb]
      have := hABCD a ha
      omega
  have hu : (uniqueSigs content).Pairwise (fun a b => sigRank a ≤ sigRank b) :=
    hraw.sublist (pyDedup_sublist _)
  refine ⟨?_, ?_, ?_, ?_, ?_⟩
  · unfold get_signatures
    split
    · refine List.pairwise_append.mpr ⟨?_, ?_, ?_⟩
      · exact hu.sublist (List.take_sublist _ _)
      · simp
      · intro a ha b hb
        rw [List.mem_singleton.mp hb, sigRank_marker]
        exact sigRank_le_four a
    · exact hu
  · show (pyDedup (rawSigs content)).filter _ = _
    rw [pyDedup_filter]
    congr 1
    unfold rawSigs
    rw [List.filter_append, List.filter_append, List.filter_append, List.filter_append]
    rw [filter_rank_eq 0 _ hA, filter_rank_ne 0 1 (by omega) _ hB,
      filter_rank_ne 0 1 (by omega) _ hC, filter_rank_ne 0 2 (by omega) _ hD,
      filter_rank_ne 0 3 (by omega) _ hE]
    simp
  · show (pyDedup (rawSigs content)).filter _ = _
    rw [pyDedup_filter]
    congr 1
    unfold rawSigs
    rw [List.filter_append, List.filter_append, List.filter_append, List.filter_append]
    rw [filter_rank_ne 1 0 (by omega) _ hA, filter_rank_eq 1 _ hB,
      filter_rank_eq 1 _ hC, filter_rank_ne 1 2 (by omega) _ hD,
      filter_rank_ne 1 3 (by omega) _ hE]
    simp
  · show (pyDedup (rawSigs content)).filter _ = _
    rw [pyDedup_filter]
    congr 1
    unfold rawSigs
    rw [List.filter_append, List.filter_append, List.filter_append, List.filter_append]
    rw [filter_rank_ne 2 0 (by omega) _ hA, filter_rank_ne 2 1 (by omega) _ hB,
      filter_rank_ne 2 1 (by omega) _ hC, filter_rank_eq 2 _ hD,
      filter_rank_ne 2 3 (by omega) _ hE]
    simp
  · show (pyDedup (rawSigs content)).filter _ = _
    rw [pyDedup_filter]
    congr 1
    unfold rawSigs
    rw [List.filter_append, List.filter_append, List.filter_append, List.filter_append]
    rw [filter_rank_ne 3 0 (by omega) _ hA, filter_rank_ne 3 1 (by omega) _ hB,
      filter_rank_ne 3 1 (by omega) _ hC, filter_rank_ne 3 2 (by omega) _ hD,
      filter_rank_eq 3 _ hE]
    simp
